import Mathlib

set_option maxHeartbeats 1000000
set_option maxRecDepth 8192

/-!
Shallow embedding of the bfint Brainfuck interpreter (src/main.rs) and
verification of its specification.

Bytes are modelled as naturals; `u8` arithmetic is explicit `% 256` and
`usize` arithmetic is explicit `% usizeSize`.  Fallible Rust functions
returning `Option` are embedded as Lean `Option`.  The executor's I/O is
modelled by an explicit input list and output list; the `write`/`flush`
calls on stdout are modelled as infallible, so the `IOError` arm of
`ExecutionResult` exists but is never produced by the model.
-/

/-- Cardinality of the 64-bit `usize` machine word. -/
def usizeSize : Nat := 2 ^ 64

/-- Embedding of the Rust enum `BFInstruction`.  `u8` payloads are naturals
kept below 256 by the wrapping operations; `usize` payloads are naturals kept
below `usizeSize`. -/
inductive BFInstruction where
  | Add (val : Nat)
  | Subtract (val : Nat)
  | IncrementPointer (k : Nat)
  | DecrementPointer (k : Nat)
  | Output
  | Input
  | LoopStart (idx : Nat)
  | LoopEnd (idx : Nat)
  deriving DecidableEq

/-- State of `parse_data`'s loop over the source bytes: the emitted
instruction vector (`none` is the placeholder pushed for a not-yet-closed
`[`), the stack of open-bracket indices, and the pending run-length
instruction (`last_instruction` in the Rust). -/
structure ParseState where
  instructions : List (Option BFInstruction)
  loop_stack : List Nat
  last_instruction : Option BFInstruction
  deriving DecidableEq

/-- Commit the pending instruction: `instructions` after pushing
`last_instruction` onto it when present (the `if let Some(last) = ...` and
end-of-loop push in the Rust). -/
def commitPending (s : ParseState) : List (Option BFInstruction) :=
  match s.last_instruction with
  | some last => s.instructions ++ [some last]
  | none => s.instructions

/-- One iteration of `parse_data`'s `for &byte in data` loop.  Byte values:
`+` 43, `-` 45, `>` 62, `<` 60, `.` 46, `,` 44, `[` 91, `]` 93.  Returns
`none` exactly when the Rust `loop_stack.pop()?` fails. -/
def parseStep (s : ParseState) (byte : Nat) : Option ParseState :=
  if byte = 43 then
    match s.last_instruction with
    | some (.Add val) => some ⟨s.instructions, s.loop_stack, some (.Add ((val + 1) % 256))⟩
    | some other => some ⟨s.instructions ++ [some other], s.loop_stack, some (.Add 1)⟩
    | none => some ⟨s.instructions, s.loop_stack, some (.Add 1)⟩
  else if byte = 45 then
    match s.last_instruction with
    | some (.Subtract val) => some ⟨s.instructions, s.loop_stack, some (.Subtract ((val + 1) % 256))⟩
    | some other => some ⟨s.instructions ++ [some other], s.loop_stack, some (.Subtract 1)⟩
    | none => some ⟨s.instructions, s.loop_stack, some (.Subtract 1)⟩
  else if byte = 62 then
    match s.last_instruction with
    | some (.IncrementPointer k) => some ⟨s.instructions, s.loop_stack, some (.IncrementPointer ((k + 1) % usizeSize))⟩
    | some other => some ⟨s.instructions ++ [some other], s.loop_stack, some (.IncrementPointer 1)⟩
    | none => some ⟨s.instructions, s.loop_stack, some (.IncrementPointer 1)⟩
  else if byte = 60 then
    match s.last_instruction with
    | some (.DecrementPointer k) => some ⟨s.instructions, s.loop_stack, some (.DecrementPointer ((k + 1) % usizeSize))⟩
    | some other => some ⟨s.instructions ++ [some other], s.loop_stack, some (.DecrementPointer 1)⟩
    | none => some ⟨s.instructions, s.loop_stack, some (.DecrementPointer 1)⟩
  else if byte = 46 then
    some ⟨commitPending s ++ [some .Output], s.loop_stack, none⟩
  else if byte = 44 then
    some ⟨commitPending s ++ [some .Input], s.loop_stack, none⟩
  else if byte = 91 then
    some ⟨commitPending s ++ [none], (commitPending s).length :: s.loop_stack, none⟩
  else if byte = 93 then
    match s.loop_stack with
    | [] => none
    | idx :: rest =>
        some ⟨((commitPending s).set idx (some (.LoopStart (commitPending s).length)))
                ++ [some (.LoopEnd idx)], rest, none⟩
  else
    some s

/-- The `for` loop of `parse_data`, with the early return of `?` on an
unmatched `]`. -/
def parseLoop (s : ParseState) : List Nat → Option ParseState
  | [] => some s
  | b :: rest =>
    match parseStep s b with
    | none => none
    | some s' => parseLoop s' rest

/-- The final collection loop of `parse_data`: pushes every resolved
instruction, returning `none` on the first remaining placeholder
(`instructions_return.push(instruction?)` in the Rust). -/
def collectInstrs : List (Option BFInstruction) → Option (List BFInstruction)
  | [] => some []
  | none :: _ => none
  | some instr :: rest =>
    match collectInstrs rest with
    | none => none
    | some l => some (instr :: l)

/-- Embedding of `parse_data`: run the byte loop from the empty state, commit
the residual pending instruction, then collect, failing if any placeholder
is left unresolved. -/
def parse_data (data : List Nat) : Option (List BFInstruction) :=
  match parseLoop ⟨[], [], none⟩ data with
  | none => none
  | some s => collectInstrs (commitPending s)

/-- Embedding of the Rust enum `ExecutionResult`. -/
inductive ExecutionResult where
  | Ok
  | MemoryAccessError
  | IOError
  deriving DecidableEq

/-- The executor's state: program counter, data pointer, memory cells (each
kept below 256), the remaining bytes on standard input and the bytes written
so far to standard output. -/
structure ExecState where
  program_counter : Nat
  data_pointer : Nat
  memory : List Nat
  stdin : List Nat
  stdout : List Nat
  deriving DecidableEq

/-- Result of one iteration of the executor's `while` loop: either the
function returned, or execution continues in a new state. -/
inductive StepResult where
  | done (r : ExecutionResult)
  | next (s : ExecState)
  deriving DecidableEq

/-- One iteration of `run_program`'s `while program_counter < program.len()`
loop, including the `program_counter += 1` that follows the `match`.  When
the program counter is past the end this models the loop exiting with `Ok`. -/
def execStep (program : List BFInstruction) (s : ExecState) : StepResult :=
  match program[s.program_counter]? with
  | none => .done .Ok
  | some instr =>
    match instr with
    | .Add val =>
      match s.memory[s.data_pointer]? with
      | none => .done .MemoryAccessError
      | some cell =>
          .next { s with memory := s.memory.set s.data_pointer ((cell + val) % 256),
                         program_counter := s.program_counter + 1 }
    | .Subtract val =>
      match s.memory[s.data_pointer]? with
      | none => .done .MemoryAccessError
      | some cell =>
          .next { s with memory := s.memory.set s.data_pointer ((cell + (256 - val % 256)) % 256),
                         program_counter := s.program_counter + 1 }
    | .IncrementPointer k =>
        .next { s with data_pointer := (s.data_pointer + k) % usizeSize,
                       program_counter := s.program_counter + 1 }
    | .DecrementPointer k =>
        .next { s with data_pointer := (s.data_pointer + (usizeSize - k % usizeSize)) % usizeSize,
                       program_counter := s.program_counter + 1 }
    | .Output =>
      match s.memory[s.data_pointer]? with
      | none => .done .MemoryAccessError
      | some cell =>
          .next { s with stdout := s.stdout ++ [cell],
                         program_counter := s.program_counter + 1 }
    | .Input =>
      match s.memory[s.data_pointer]? with
      | none => .done .MemoryAccessError
      | some _ =>
        match s.stdin with
        | [] =>
            .next { s with memory := s.memory.set s.data_pointer 0,
                           program_counter := s.program_counter + 1 }
        | b :: rest =>
            .next { s with memory := s.memory.set s.data_pointer b,
                           stdin := rest,
                           program_counter := s.program_counter + 1 }
    | .LoopStart idx =>
      match s.memory[s.data_pointer]? with
      | none => .done .MemoryAccessError
      | some cell =>
          .next { s with program_counter := (if cell = 0 then idx else s.program_counter) + 1 }
    | .LoopEnd idx =>
      match s.memory[s.data_pointer]? with
      | none => .done .MemoryAccessError
      | some cell =>
          .next { s with program_counter := (if cell ≠ 0 then idx else s.program_counter) + 1 }

/-- Iterate `execStep` with explicit fuel; `none` means the fuel ran out
before the program terminated. -/
def runFuel (program : List BFInstruction) : Nat → ExecState → Option ExecutionResult
  | 0, _ => none
  | fuel + 1, s =>
    match execStep program s with
    | .done r => some r
    | .next s' => runFuel program fuel s'

/-- Embedding of `run_program`: zero-initialised memory of the given size,
program counter and data pointer at 0, the given input on stdin. -/
def run_program (program : List BFInstruction) (memory_size : Nat)
    (input : List Nat) (fuel : Nat) : Option ExecutionResult :=
  runFuel program fuel ⟨0, 0, List.replicate memory_size 0, input, []⟩

/-- Embedding of the Rust struct `Args` (the path is kept as a string). -/
structure Args where
  path : String
  memory_size : Nat
  deriving DecidableEq

/-- Embedding of `str::parse::<usize>` as used for the `mem_size` argument:
an optional leading `+`, then one or more ASCII digits, rejecting the empty
string, any other character, and values that overflow `usize`. -/
def parseUsize (s : String) : Option Nat :=
  let chars := match s.data with
    | '+' :: rest => rest
    | other => other
  if chars = [] then none
  else if chars.all (fun c => decide (48 ≤ c.toNat) && decide (c.toNat ≤ 57)) then
    let val := chars.foldl (fun acc c => acc * 10 + (c.toNat - 48)) 0
    if val < usizeSize then some val else none
  else none

/-- Embedding of `parse_args`: skip the program name, take the next argument
as the path and parse the one after as the memory size; any further
arguments are never inspected by the iterator. -/
def parse_args (args : List String) : Option Args :=
  match args with
  | [] => none
  | _ :: rest =>
    match rest with
    | [] => none
    | path :: rest2 =>
      match rest2 with
      | [] => none
      | m :: _ =>
        match parseUsize m with
        | none => none
        | some n => some ⟨path, n⟩

/-- The eight bytes recognised by the parser's `match`. -/
def isOpcodeByte (b : Nat) : Bool :=
  b = 43 || b = 45 || b = 62 || b = 60 || b = 46 || b = 44 || b = 91 || b = 93

/-- Modelled from the spec's failure condition, for comparison with
`parse_data`: scanning left to right with a depth counter, brackets are
balanced unless some `]` is read at depth zero or the input ends at positive
depth. -/
def balancedSpecAux : List Nat → Nat → Bool
  | [], depth => depth == 0
  | b :: rest, depth =>
    if b = 91 then balancedSpecAux rest (depth + 1)
    else if b = 93 then
      match depth with
      | 0 => false
      | d + 1 => balancedSpecAux rest d
    else balancedSpecAux rest depth

/-- Modelled from the spec: bracket balance of a whole source. -/
def balancedSpec (data : List Nat) : Bool :=
  balancedSpecAux data 0

/-- The run-length-foldable tag of an instruction, when it has one
(0 = Add, 1 = Subtract, 2 = IncrementPointer, 3 = DecrementPointer). -/
def foldClass : BFInstruction → Option Nat
  | .Add _ => some 0
  | .Subtract _ => some 1
  | .IncrementPointer _ => some 2
  | .DecrementPointer _ => some 3
  | _ => none

/-- Whether an instruction is a loop bracket. -/
def isLoopMarker : BFInstruction → Bool
  | .LoopStart _ => true
  | .LoopEnd _ => true
  | _ => false

/-- Whether the executor's arm for an instruction reads or writes the
current memory cell (everything except the two pointer moves). -/
def accessesCell : BFInstruction → Bool
  | .IncrementPointer _ => false
  | .DecrementPointer _ => false
  | _ => true

/-- The pending slot only ever holds a run-length-foldable instruction. -/
def pendingOk (p : Option BFInstruction) : Prop :=
  ∀ instr, p = some instr → (foldClass instr).isSome = true

/-- Structural invariant of the parser's instruction vector and bracket
stack: the `none` placeholders are exactly the stacked indices, the stack is
strictly decreasing and in range, and the already-resolved brackets are
mutually matched. -/
structure InstrInv (instrs : List (Option BFInstruction)) (stack : List Nat) : Prop where
  none_iff : ∀ i, instrs[i]? = some none ↔ i ∈ stack
  stack_lt : ∀ x ∈ stack, x < instrs.length
  stack_sorted : stack.Pairwise (fun a b => b < a)
  pairs_start : ∀ i j, instrs[i]? = some (some (BFInstruction.LoopStart j)) →
    i < j ∧ instrs[j]? = some (some (BFInstruction.LoopEnd i))
  pairs_end : ∀ i j, instrs[j]? = some (some (BFInstruction.LoopEnd i)) →
    i < j ∧ instrs[i]? = some (some (BFInstruction.LoopStart j))

/-- Combined parser invariant for the bracket-matching claims. -/
def ParseInv (s : ParseState) : Prop :=
  InstrInv s.instructions s.loop_stack ∧ pendingOk s.last_instruction

/-- No two adjacent resolved entries share a run-length-foldable tag. -/
def noAdjFold (l : List (Option BFInstruction)) : Prop :=
  ∀ i p q c, l[i]? = some (some p) → l[i + 1]? = some (some q) →
    foldClass p = some c → foldClass q = some c → False

/-- The last committed entry, if resolved, is not run-length foldable. -/
def lastNotFold (l : List (Option BFInstruction)) : Prop :=
  ∀ instr, l[l.length - 1]? = some (some instr) → foldClass instr = none

/-- Parser invariant for the maximal-folding claim: committing the pending
instruction yields no adjacent equal foldable tags, the pending slot is
foldable, and when the pending slot is empty the last committed entry is not
foldable. -/
structure FoldInv (s : ParseState) : Prop where
  noadj : noAdjFold (commitPending s)
  pending : pendingOk s.last_instruction
  lastcommitted : s.last_instruction = none → lastNotFold s.instructions

/-! General list helper lemmas used throughout. -/

theorem getElem?_concat {α : Type} (l : List α) (a : α) (i : Nat) :
    (l ++ [a])[i]? = if i = l.length then some a else l[i]? := by
  by_cases h : i = l.length
  · subst h
    simp [List.getElem?_concat_length]
  · rw [if_neg h]
    rcases Nat.lt_or_ge i l.length with hlt | hge
    · exact List.getElem?_append_left hlt
    · have hgt : l.length < i := Nat.lt_of_le_of_ne hge (fun e => h e.symm)
      rw [List.getElem?_append_right hge, List.getElem?_eq_none (l := l) hge,
        List.getElem?_eq_none]
      simp
      omega

theorem lt_of_getElem?_some {α : Type} {l : List α} {i : Nat} {a : α}
    (h : l[i]? = some a) : i < l.length := by
  by_contra hc
  rw [List.getElem?_eq_none (Nat.le_of_not_lt hc)] at h
  cases h

theorem set_getElem?_self {α : Type} {l : List α} {i : Nat} {a : α}
    (h : l[i]? = some a) : l.set i a = l := by
  have hi : i < l.length := lt_of_getElem?_some h
  apply List.ext_getElem?
  intro j
  rw [List.getElem?_set]
  by_cases hij : i = j
  · subst hij
    rw [if_pos rfl, if_pos hi, h]
  · rw [if_neg hij]

/-! Lemmas about the final collection pass of the parser. -/

theorem collectInstrs_eq_map {l : List (Option BFInstruction)} {r : List BFInstruction}
    (h : collectInstrs l = some r) : l = r.map some := by
  induction l generalizing r with
  | nil =>
    simp only [collectInstrs, Option.some_inj] at h
    subst h
    rfl
  | cons o rest ih =>
    cases o with
    | none => simp [collectInstrs] at h
    | some instr =>
      simp only [collectInstrs] at h
      cases hc : collectInstrs rest with
      | none => rw [hc] at h; cases h
      | some l' =>
        rw [hc] at h
        cases h
        simp [ih hc]

theorem collectInstrs_isSome {l : List (Option BFInstruction)} :
    (collectInstrs l).isSome = true ↔ none ∉ l := by
  induction l with
  | nil => simp [collectInstrs]
  | cons o rest ih =>
    cases o with
    | none => simp [collectInstrs]
    | some instr =>
      simp only [collectInstrs, List.mem_cons]
      cases hc : collectInstrs rest <;> simp_all

/-! Lemmas about single executor steps, used by several claims. -/

theorem execStep_inc {prog : List BFInstruction} {s : ExecState} {k : Nat}
    (h : prog[s.program_counter]? = some (.IncrementPointer k)) :
    execStep prog s = .next { s with data_pointer := (s.data_pointer + k) % usizeSize,
                                     program_counter := s.program_counter + 1 } := by
  simp only [execStep, h]

theorem execStep_dec {prog : List BFInstruction} {s : ExecState} {k : Nat}
    (h : prog[s.program_counter]? = some (.DecrementPointer k)) :
    execStep prog s = .next { s with
        data_pointer := (s.data_pointer + (usizeSize - k % usizeSize)) % usizeSize,
        program_counter := s.program_counter + 1 } := by
  simp only [execStep, h]

theorem execStep_oob {prog : List BFInstruction} {s : ExecState} {instr : BFInstruction}
    (h : prog[s.program_counter]? = some instr) (hacc : accessesCell instr = true)
    (hdp : s.memory.length ≤ s.data_pointer) :
    execStep prog s = .done .MemoryAccessError := by
  have hm : s.memory[s.data_pointer]? = none := List.getElem?_eq_none hdp
  cases instr <;> simp only [execStep, h, hm] <;> simp [accessesCell] at hacc

/-- Claim C3: pointer moves perform wrapping machine-word arithmetic and never
themselves fail; out-of-range is only detected at the next cell access.  On
memory of size 1, the parse of `>+` runs to MemoryAccessError, `<+` runs to
MemoryAccessError (the pointer wraps to a very large index), and `<>+` runs
to Ok. -/
theorem pointer_moves_wrap_and_defer_bounds :
    (∀ (prog : List BFInstruction) (s : ExecState) (k : Nat),
      prog[s.program_counter]? = some (.IncrementPointer k) →
      execStep prog s = .next { s with data_pointer := (s.data_pointer + k) % usizeSize,
                                       program_counter := s.program_counter + 1 }) ∧
    (∀ (prog : List BFInstruction) (s : ExecState) (k : Nat),
      prog[s.program_counter]? = some (.DecrementPointer k) →
      execStep prog s = .next { s with
          data_pointer := (s.data_pointer + (usizeSize - k % usizeSize)) % usizeSize,
          program_counter := s.program_counter + 1 }) ∧
    (parse_data [62, 43] = some [.IncrementPointer 1, .Add 1] ∧
      run_program [.IncrementPointer 1, .Add 1] 1 [] 10 = some .MemoryAccessError) ∧
    (parse_data [60, 43] = some [.DecrementPointer 1, .Add 1] ∧
      run_program [.DecrementPointer 1, .Add 1] 1 [] 10 = some .MemoryAccessError) ∧
    (parse_data [60, 62, 43] = some [.DecrementPointer 1, .IncrementPointer 1, .Add 1] ∧
      run_program [.DecrementPointer 1, .IncrementPointer 1, .Add 1] 1 [] 10 = some .Ok) := by
  refine ⟨fun prog s k h => execStep_inc h, fun prog s k h => execStep_dec h, ?_, ?_, ?_⟩ <;>
    exact ⟨by decide, by decide⟩

/-- Witness for C3 at a concrete input: an IncrementPointer step from a
concrete state. -/
theorem pointer_moves_wrap_and_defer_bounds_witness :
    execStep [BFInstruction.IncrementPointer 5] ⟨0, 0, [0], [], []⟩ =
      .next ⟨1, 5 % usizeSize, [0], [], []⟩ :=
  pointer_moves_wrap_and_defer_bounds.1 [BFInstruction.IncrementPointer 5] ⟨0, 0, [0], [], []⟩ 5 rfl

/-- Claim C4: the program counter is incremented by one after every
instruction, including taken jumps: a taken LoopStart continues at its
target index plus one (just after the matching LoopEnd), a taken LoopEnd
continues at its target index plus one (the first instruction of the loop
body), and every non-returning step either increments the counter or lands
at a bracket target plus one. -/
theorem program_counter_post_increment :
    (∀ (prog : List BFInstruction) (s : ExecState) (idx cell : Nat),
      prog[s.program_counter]? = some (.LoopStart idx) →
      s.memory[s.data_pointer]? = some cell →
      (cell = 0 → execStep prog s = .next { s with program_counter := idx + 1 }) ∧
      (cell ≠ 0 → execStep prog s = .next { s with program_counter := s.program_counter + 1 })) ∧
    (∀ (prog : List BFInstruction) (s : ExecState) (idx cell : Nat),
      prog[s.program_counter]? = some (.LoopEnd idx) →
      s.memory[s.data_pointer]? = some cell →
      (cell ≠ 0 → execStep prog s = .next { s with program_counter := idx + 1 }) ∧
      (cell = 0 → execStep prog s = .next { s with program_counter := s.program_counter + 1 })) ∧
    (∀ (prog : List BFInstruction) (s : ExecState) (s' : ExecState),
      execStep prog s = .next s' →
      s'.program_counter = s.program_counter + 1 ∨
      ∃ idx, (prog[s.program_counter]? = some (.LoopStart idx) ∨
              prog[s.program_counter]? = some (.LoopEnd idx)) ∧
             s'.program_counter = idx + 1) := by
  refine ⟨?_, ?_, ?_⟩
  · intro prog s idx cell h hm
    constructor
    · intro hc
      simp [execStep, h, hm, hc]
    · intro hc
      simp [execStep, h, hm, hc]
  · intro prog s idx cell h hm
    constructor
    · intro hc
      simp [execStep, h, hm, hc]
    · intro hc
      subst hc
      simp [execStep, h, hm]
  · intro prog s s' hstep
    cases hpc : prog[s.program_counter]? with
    | none =>
      simp only [execStep, hpc] at hstep
      exact StepResult.noConfusion hstep
    | some instr =>
      cases instr with
      | Add val =>
        simp only [execStep, hpc] at hstep
        cases hm : s.memory[s.data_pointer]? with
        | none => simp only [hm] at hstep; exact StepResult.noConfusion hstep
        | some cell =>
          simp only [hm, StepResult.next.injEq] at hstep
          left; rw [← hstep]
      | Subtract val =>
        simp only [execStep, hpc] at hstep
        cases hm : s.memory[s.data_pointer]? with
        | none => simp only [hm] at hstep; exact StepResult.noConfusion hstep
        | some cell =>
          simp only [hm, StepResult.next.injEq] at hstep
          left; rw [← hstep]
      | IncrementPointer k =>
        simp only [execStep, hpc, StepResult.next.injEq] at hstep
        left; rw [← hstep]
      | DecrementPointer k =>
        simp only [execStep, hpc, StepResult.next.injEq] at hstep
        left; rw [← hstep]
      | Output =>
        simp only [execStep, hpc] at hstep
        cases hm : s.memory[s.data_pointer]? with
        | none => simp only [hm] at hstep; exact StepResult.noConfusion hstep
        | some cell =>
          simp only [hm, StepResult.next.injEq] at hstep
          left; rw [← hstep]
      | Input =>
        simp only [execStep, hpc] at hstep
        cases hm : s.memory[s.data_pointer]? with
        | none => simp only [hm] at hstep; exact StepResult.noConfusion hstep
        | some cell =>
          simp only [hm] at hstep
          cases hin : s.stdin with
          | nil =>
            simp only [hin, StepResult.next.injEq] at hstep
            left; rw [← hstep]
          | cons b rest =>
            simp only [hin, StepResult.next.injEq] at hstep
            left; rw [← hstep]
      | LoopStart idx =>
        simp only [execStep, hpc] at hstep
        cases hm : s.memory[s.data_pointer]? with
        | none => simp only [hm] at hstep; exact StepResult.noConfusion hstep
        | some cell =>
          simp only [hm, StepResult.next.injEq] at hstep
          by_cases hc : cell = 0
          · right
            exact ⟨idx, Or.inl rfl, by rw [← hstep]; simp [hc]⟩
          · left
            rw [← hstep]
            simp [hc]
      | LoopEnd idx =>
        simp only [execStep, hpc] at hstep
        cases hm : s.memory[s.data_pointer]? with
        | none => simp only [hm] at hstep; exact StepResult.noConfusion hstep
        | some cell =>
          simp only [hm, StepResult.next.injEq] at hstep
          by_cases hc : cell = 0
          · left
            rw [← hstep]
            simp [hc]
          · right
            exact ⟨idx, Or.inr rfl, by rw [← hstep]; simp [hc]⟩

/-- Witness for C4 at a concrete input: a taken LoopStart jump from a
concrete state lands at the target plus one. -/
theorem program_counter_post_increment_witness :
    execStep [BFInstruction.LoopStart 0] ⟨0, 0, [0], [], []⟩ = .next ⟨0 + 1, 0, [0], [], []⟩ :=
  (program_counter_post_increment.1 [BFInstruction.LoopStart 0] ⟨0, 0, [0], [], []⟩ 0 0
    rfl rfl).1 rfl

/-- Claim C7: every cell-accessing instruction (Add, Subtract, Output, Input,
LoopStart, LoopEnd) returns MemoryAccessError when executed with the data
pointer at or past the end of memory; in particular LoopStart's read is
bounds-checked, so the parse of `>[]` on memory of size 1 returns
MemoryAccessError. -/
theorem cell_access_bounds_checked :
    (∀ (prog : List BFInstruction) (s : ExecState) (instr : BFInstruction),
      prog[s.program_counter]? = some instr → accessesCell instr = true →
      s.memory.length ≤ s.data_pointer →
      execStep prog s = .done .MemoryAccessError) ∧
    (parse_data [62, 91, 93] = some [.IncrementPointer 1, .LoopStart 2, .LoopEnd 1] ∧
      run_program [.IncrementPointer 1, .LoopStart 2, .LoopEnd 1] 1 [] 10 =
        some .MemoryAccessError) :=
  ⟨fun _ _ _ h hacc hdp => execStep_oob h hacc hdp, by decide, by decide⟩

/-- Witness for C7 at a concrete input: an Output instruction with the data
pointer out of range fails. -/
theorem cell_access_bounds_checked_witness :
    execStep [BFInstruction.Output] ⟨0, 3, [7], [], []⟩ = .done .MemoryAccessError :=
  cell_access_bounds_checked.1 [BFInstruction.Output] ⟨0, 3, [7], [], []⟩ .Output rfl rfl
    (by decide)

/-! Run-length folding of a pure `+` run. -/

theorem parseLoop_plus_run (n : Nat) : ∀ (acc : Nat) (instrs : List (Option BFInstruction))
    (stack : List Nat), acc < 256 →
    parseLoop ⟨instrs, stack, some (.Add acc)⟩ (List.replicate n 43) =
      some ⟨instrs, stack, some (.Add ((acc + n) % 256))⟩ := by
  induction n with
  | zero =>
    intro acc instrs stack h
    simp [parseLoop, Nat.mod_eq_of_lt h]
  | succ m ih =>
    intro acc instrs stack h
    rw [List.replicate_succ]
    have h1 : parseLoop ⟨instrs, stack, some (.Add acc)⟩ (43 :: List.replicate m 43)
        = parseLoop ⟨instrs, stack, some (.Add ((acc + 1) % 256))⟩ (List.replicate m 43) := rfl
    rw [h1, ih ((acc + 1) % 256) instrs stack (Nat.mod_lt _ (by norm_num))]
    have h2 : ((acc + 1) % 256 + m) % 256 = (acc + (m + 1)) % 256 := by
      rw [Nat.mod_add_mod]
      congr 1
      omega
    rw [h2]

/-- Claim C5: run-length counts are accumulated with 8-bit wrapping addition,
so a source of exactly n `+` bytes (n at least 1) parses to the single
instruction Add (n mod 256). -/
theorem plus_run_folds_mod_256 (n : Nat) (h : 1 ≤ n) :
    parse_data (List.replicate n 43) = some [BFInstruction.Add (n % 256)] := by
  obtain ⟨m, rfl⟩ : ∃ m, n = m + 1 := ⟨n - 1, by omega⟩
  rw [List.replicate_succ]
  unfold parse_data
  have h1 : parseLoop ⟨[], [], none⟩ (43 :: List.replicate m 43)
      = parseLoop ⟨[], [], some (.Add 1)⟩ (List.replicate m 43) := rfl
  rw [h1, parseLoop_plus_run m 1 [] [] (by norm_num)]
  have h2 : (1 + m) % 256 = (m + 1) % 256 := by rw [Nat.add_comm]
  simp [commitPending, collectInstrs, h2]

/-- Witness for C5: 257 consecutive `+` bytes parse to Add 1. -/
theorem plus_run_folds_mod_256_witness :
    parse_data (List.replicate 257 43) = some [BFInstruction.Add 1] := by
  have h := plus_run_folds_mod_256 257 (by norm_num)
  have h2 : (257 : Nat) % 256 = 1 := by norm_num
  rw [h2] at h
  exact h

/-- Claim C10: the parser resolves the zero-count-run ambiguity by emitting,
not skipping: 256 consecutive `+` bytes parse to exactly the stream
containing the single instruction Add 0, executing Add 0 changes nothing but
the program counter, and running that one-instruction program terminates
with Ok. -/
theorem zero_count_run_emitted :
    parse_data (List.replicate 256 43) = some [BFInstruction.Add 0] ∧
    (∀ (prog : List BFInstruction) (s : ExecState) (cell : Nat),
      prog[s.program_counter]? = some (.Add 0) →
      s.memory[s.data_pointer]? = some cell → cell < 256 →
      execStep prog s = .next { s with program_counter := s.program_counter + 1 }) ∧
    run_program ([BFInstruction.Add 0]) 1 [] 2 = some .Ok := by
  refine ⟨?_, ?_, by decide⟩
  · have h1 : parseLoop ⟨[], [], none⟩ (List.replicate 256 43)
        = parseLoop ⟨[], [], some (.Add 1)⟩ (List.replicate 255 43) := rfl
    unfold parse_data
    rw [h1, parseLoop_plus_run 255 1 [] [] (by norm_num)]
    simp [commitPending, collectInstrs]
  · intro prog s cell h hm hlt
    have hset : s.memory.set s.data_pointer ((cell + 0) % 256) = s.memory := by
      have : (cell + 0) % 256 = cell := by
        rw [Nat.add_zero]
        exact Nat.mod_eq_of_lt hlt
      rw [this]
      exact set_getElem?_self hm
    simp only [execStep, h, hm, hset]

/-- Witness for C10: executing Add 0 on a concrete state leaves memory, data
pointer and I/O unchanged. -/
theorem zero_count_run_emitted_witness :
    execStep [BFInstruction.Add 0] ⟨0, 0, [7], [4], []⟩ = .next ⟨1, 0, [7], [4], []⟩ :=
  zero_count_run_emitted.2.1 [BFInstruction.Add 0] ⟨0, 0, [7], [4], []⟩ 7 rfl rfl (by decide)

/-! Insensitivity of the parser to non-opcode bytes. -/

theorem parseStep_non_opcode (s : ParseState) (b : Nat) (h : isOpcodeByte b = false) :
    parseStep s b = some s := by
  simp only [isOpcodeByte, Bool.or_eq_false_iff, decide_eq_false_iff_not] at h
  obtain ⟨⟨⟨⟨⟨⟨⟨h1, h2⟩, h3⟩, h4⟩, h5⟩, h6⟩, h7⟩, h8⟩ := h
  simp [parseStep, h1, h2, h3, h4, h5, h6, h7, h8]

theorem parseLoop_cons (s : ParseState) (b : Nat) (rest : List Nat) :
    parseLoop s (b :: rest) =
      match parseStep s b with
      | none => none
      | some s' => parseLoop s' rest := rfl

theorem parseLoop_filter (data : List Nat) : ∀ s : ParseState,
    parseLoop s (data.filter isOpcodeByte) = parseLoop s data := by
  induction data with
  | nil => intro s; rfl
  | cons b rest ih =>
    intro s
    by_cases hb : isOpcodeByte b = true
    · rw [List.filter_cons_of_pos hb, parseLoop_cons, parseLoop_cons]
      cases parseStep s b with
      | none => rfl
      | some s' => exact ih s'
    · rw [List.filter_cons_of_neg (by simpa using hb), parseLoop_cons s b rest,
        parseStep_non_opcode s b (by simpa using hb)]
      exact ih s

/-- Claim C8: parsing is insensitive to non-opcode bytes; parsing any byte
buffer gives the same result (stream or failure) as parsing the buffer
filtered down to its opcode bytes. -/
theorem parse_insensitive_to_comments (data : List Nat) :
    parse_data data = parse_data (data.filter isOpcodeByte) := by
  unfold parse_data
  rw [parseLoop_filter]

/-! Argument parsing. -/

/-- Counterexample to claim C9 as stated: an argument vector with four items
(program name plus three positionals) is accepted by parse_args, not
rejected. -/
theorem parse_args_extra_args_accepted :
    parse_args ["bfint", "program.bf", "30000", "extra"] ≠ none := by decide

/-- Claim C9 (amended): parse_args rejects argument vectors with fewer than
three items (program name plus two positionals) and those whose memory-size
item fails to parse as usize; given at least two positionals with a valid
size it succeeds, silently ignoring any further arguments. -/
theorem parse_args_requires_two_positionals :
    (∀ l : List String, l.length < 3 → parse_args l = none) ∧
    (∀ (a p m : String) (rest : List String) (n : Nat), parseUsize m = some n →
      parse_args (a :: p :: m :: rest) = some ⟨p, n⟩) ∧
    (∀ (a p m : String) (rest : List String), parseUsize m = none →
      parse_args (a :: p :: m :: rest) = none) := by
  refine ⟨?_, ?_, ?_⟩
  · intro l hl
    match l with
    | [] => rfl
    | [a] => rfl
    | [a, b] => rfl
    | a :: b :: c :: r => simp only [List.length_cons] at hl; omega
  · intro a p m rest n h
    simp [parse_args, h]
  · intro a p m rest h
    simp [parse_args, h]

/-- Witness for the amended C9: a concrete four-item argument vector is
accepted with the extra argument ignored. -/
theorem parse_args_requires_two_positionals_witness :
    parse_args ["bfint", "hello.bf", "9", "ignored"] = some ⟨"hello.bf", 9⟩ :=
  parse_args_requires_two_positionals.2.1 "bfint" "hello.bf" "9" ["ignored"] 9 (by decide)

/-! Preservation of the bracket-matching invariant by the parser. -/

theorem pendingOk_none : pendingOk none :=
  fun _ hi => by cases hi

theorem pendingOk_some (instr : BFInstruction) (h : (foldClass instr).isSome = true) :
    pendingOk (some instr) :=
  fun _ hi => by cases hi; exact h

theorem InstrInv.append_resolved {instrs : List (Option BFInstruction)} {stack : List Nat}
    (h : InstrInv instrs stack) {instr : BFInstruction} (hn : isLoopMarker instr = false) :
    InstrInv (instrs ++ [some instr]) stack := by
  constructor
  · intro i
    rw [getElem?_concat]
    by_cases hi : i = instrs.length
    · subst hi
      simp only [if_pos rfl]
      constructor
      · intro hh; cases hh
      · intro hmem
        exact absurd (h.stack_lt _ hmem) (lt_irrefl _)
    · rw [if_neg hi]
      exact h.none_iff i
  · intro x hx
    have := h.stack_lt x hx
    simp only [List.length_append, List.length_cons, List.length_nil]
    omega
  · exact h.stack_sorted
  · intro i j hij
    rw [getElem?_concat] at hij
    by_cases hi : i = instrs.length
    · rw [if_pos hi] at hij
      cases hij
      simp [isLoopMarker] at hn
    · rw [if_neg hi] at hij
      obtain ⟨hlt, hj⟩ := h.pairs_start i j hij
      have hjl : j < instrs.length := lt_of_getElem?_some hj
      refine ⟨hlt, ?_⟩
      rw [getElem?_concat, if_neg (Nat.ne_of_lt hjl)]
      exact hj
  · intro i j hij
    rw [getElem?_concat] at hij
    by_cases hj : j = instrs.length
    · rw [if_pos hj] at hij
      cases hij
      simp [isLoopMarker] at hn
    · rw [if_neg hj] at hij
      obtain ⟨hlt, hi⟩ := h.pairs_end i j hij
      have hil : i < instrs.length := lt_of_getElem?_some hi
      refine ⟨hlt, ?_⟩
      rw [getElem?_concat, if_neg (Nat.ne_of_lt hil)]
      exact hi

theorem ParseInv.commit {s : ParseState} (h : ParseInv s) :
    InstrInv (commitPending s) s.loop_stack := by
  obtain ⟨hi, hp⟩ := h
  cases hl : s.last_instruction with
  | none =>
    simpa [commitPending, hl] using hi
  | some instr =>
    have hf := hp instr hl
    have hn : isLoopMarker instr = false := by
      cases instr <;> simp_all [foldClass, isLoopMarker]
    simpa [commitPending, hl] using hi.append_resolved hn

theorem InstrInv.push_placeholder {instrs : List (Option BFInstruction)} {stack : List Nat}
    (h : InstrInv instrs stack) :
    InstrInv (instrs ++ [none]) (instrs.length :: stack) := by
  constructor
  · intro i
    rw [getElem?_concat]
    by_cases hi : i = instrs.length
    · subst hi
      simp
    · rw [if_neg hi]
      rw [h.none_iff i]
      simp only [List.mem_cons]
      constructor
      · exact fun hm => Or.inr hm
      · rintro (he | hm)
        · exact absurd he hi
        · exact hm
  · intro x hx
    simp only [List.length_append, List.length_cons, List.length_nil]
    rcases List.mem_cons.mp hx with he | hm
    · omega
    · have := h.stack_lt x hm
      omega
  · rw [List.pairwise_cons]
    exact ⟨fun x hx => h.stack_lt x hx, h.stack_sorted⟩
  · intro i j hij
    rw [getElem?_concat] at hij
    by_cases hi : i = instrs.length
    · rw [if_pos hi] at hij
      cases hij
    · rw [if_neg hi] at hij
      obtain ⟨hlt, hj⟩ := h.pairs_start i j hij
      have hjl : j < instrs.length := lt_of_getElem?_some hj
      refine ⟨hlt, ?_⟩
      rw [getElem?_concat, if_neg (Nat.ne_of_lt hjl)]
      exact hj
  · intro i j hij
    rw [getElem?_concat] at hij
    by_cases hj : j = instrs.length
    · rw [if_pos hj] at hij
      cases hij
    · rw [if_neg hj] at hij
      obtain ⟨hlt, hi'⟩ := h.pairs_end i j hij
      have hil : i < instrs.length := lt_of_getElem?_some hi'
      refine ⟨hlt, ?_⟩
      rw [getElem?_concat, if_neg (Nat.ne_of_lt hil)]
      exact hi'

theorem InstrInv.close_bracket {instrs : List (Option BFInstruction)} {stack : List Nat}
    {idx : Nat} (h : InstrInv instrs (idx :: stack)) :
    InstrInv ((instrs.set idx (some (.LoopStart instrs.length))) ++ [some (.LoopEnd idx)])
      stack := by
  have hidx : idx < instrs.length := h.stack_lt idx (List.mem_cons_self idx stack)
  have hidx_none : instrs[idx]? = some none := (h.none_iff idx).mpr (List.mem_cons_self idx stack)
  have hrest : ∀ x ∈ stack, x < idx := (List.pairwise_cons.mp h.stack_sorted).1
  have hchar : ∀ i, ((instrs.set idx (some (.LoopStart instrs.length)))
      ++ [some (.LoopEnd idx)])[i]? =
      if i = instrs.length then some (some (.LoopEnd idx))
      else if i = idx then some (some (.LoopStart instrs.length))
      else instrs[i]? := by
    intro i
    rw [getElem?_concat, List.length_set]
    by_cases h1 : i = instrs.length
    · rw [if_pos h1, if_pos h1]
    · rw [if_neg h1, if_neg h1, List.getElem?_set]
      by_cases h2 : idx = i
      · rw [if_pos h2, if_pos (h2 ▸ hidx), if_pos h2.symm]
      · rw [if_neg h2, if_neg (fun e => h2 e.symm)]
  constructor
  · intro i
    rw [hchar]
    by_cases h1 : i = instrs.length
    · rw [if_pos h1]
      constructor
      · intro hh; cases hh
      · intro hm
        have := hrest i hm
        omega
    · rw [if_neg h1]
      by_cases h2 : i = idx
      · rw [if_pos h2]
        constructor
        · intro hh; cases hh
        · intro hm
          have := hrest i hm
          omega
      · rw [if_neg h2]
        rw [h.none_iff i]
        simp only [List.mem_cons]
        constructor
        · rintro (he | hm)
          · exact absurd he h2
          · exact hm
        · exact fun hm => Or.inr hm
  · intro x hx
    have hxlt := hrest x hx
    simp only [List.length_append, List.length_set, List.length_cons, List.length_nil]
    omega
  · exact (List.pairwise_cons.mp h.stack_sorted).2
  · intro i j hij
    rw [hchar] at hij
    by_cases h1 : i = instrs.length
    · rw [if_pos h1] at hij
      simp at hij
    · rw [if_neg h1] at hij
      by_cases h2 : i = idx
      · rw [if_pos h2] at hij
        simp only [Option.some.injEq, BFInstruction.LoopStart.injEq] at hij
        subst hij
        subst h2
        refine ⟨hidx, ?_⟩
        rw [hchar, if_pos rfl]
      · rw [if_neg h2] at hij
        obtain ⟨hlt, hj⟩ := h.pairs_start i j hij
        have hjl : j < instrs.length := lt_of_getElem?_some hj
        have hjne : j ≠ idx := by
          intro e
          rw [e, hidx_none] at hj
          cases hj
        refine ⟨hlt, ?_⟩
        rw [hchar, if_neg (Nat.ne_of_lt hjl), if_neg hjne]
        exact hj
  · intro i j hij
    rw [hchar] at hij
    by_cases h1 : j = instrs.length
    · rw [if_pos h1] at hij
      simp only [Option.some.injEq, BFInstruction.LoopEnd.injEq] at hij
      subst hij
      subst h1
      refine ⟨hidx, ?_⟩
      rw [hchar, if_neg (Nat.ne_of_lt hidx), if_pos rfl]
    · rw [if_neg h1] at hij
      by_cases h2 : j = idx
      · rw [if_pos h2] at hij
        simp at hij
      · rw [if_neg h2] at hij
        obtain ⟨hlt, hi'⟩ := h.pairs_end i j hij
        have hil : i < instrs.length := lt_of_getElem?_some hi'
        have hine : i ≠ idx := by
          intro e
          rw [e, hidx_none] at hi'
          cases hi'
        refine ⟨hlt, ?_⟩
        rw [hchar, if_neg (Nat.ne_of_lt hil), if_neg hine]
        exact hi'

theorem parseStep_not_bracket (s : ParseState) (b : Nat) (hb1 : b ≠ 91) (hb2 : b ≠ 93)
    (h : ParseInv s) :
    ∃ s', parseStep s b = some s' ∧ ParseInv s' ∧ s'.loop_stack = s.loop_stack := by
  obtain ⟨hi, hp⟩ := h
  obtain ⟨instrs, stack, pending⟩ := s
  by_cases h43 : b = 43
  · subst h43
    cases pending with
    | none => exact ⟨_, rfl, ⟨hi, pendingOk_some _ rfl⟩, rfl⟩
    | some instr =>
      have hf := hp instr rfl
      cases instr with
      | Add val => exact ⟨_, rfl, ⟨hi, pendingOk_some _ rfl⟩, rfl⟩
      | Subtract val => exact ⟨_, rfl, ⟨hi.append_resolved rfl, pendingOk_some _ rfl⟩, rfl⟩
      | IncrementPointer k => exact ⟨_, rfl, ⟨hi.append_resolved rfl, pendingOk_some _ rfl⟩, rfl⟩
      | DecrementPointer k => exact ⟨_, rfl, ⟨hi.append_resolved rfl, pendingOk_some _ rfl⟩, rfl⟩
      | Output => simp [foldClass] at hf
      | Input => simp [foldClass] at hf
      | LoopStart j => simp [foldClass] at hf
      | LoopEnd j => simp [foldClass] at hf
  by_cases h45 : b = 45
  · subst h45
    cases pending with
    | none => exact ⟨_, rfl, ⟨hi, pendingOk_some _ rfl⟩, rfl⟩
    | some instr =>
      have hf := hp instr rfl
      cases instr with
      | Add val => exact ⟨_, rfl, ⟨hi.append_resolved rfl, pendingOk_some _ rfl⟩, rfl⟩
      | Subtract val => exact ⟨_, rfl, ⟨hi, pendingOk_some _ rfl⟩, rfl⟩
      | IncrementPointer k => exact ⟨_, rfl, ⟨hi.append_resolved rfl, pendingOk_some _ rfl⟩, rfl⟩
      | DecrementPointer k => exact ⟨_, rfl, ⟨hi.append_resolved rfl, pendingOk_some _ rfl⟩, rfl⟩
      | Output => simp [foldClass] at hf
      | Input => simp [foldClass] at hf
      | LoopStart j => simp [foldClass] at hf
      | LoopEnd j => simp [foldClass] at hf
  by_cases h62 : b = 62
  · subst h62
    cases pending with
    | none => exact ⟨_, rfl, ⟨hi, pendingOk_some _ rfl⟩, rfl⟩
    | some instr =>
      have hf := hp instr rfl
      cases instr with
      | Add val => exact ⟨_, rfl, ⟨hi.append_resolved rfl, pendingOk_some _ rfl⟩, rfl⟩
      | Subtract val => exact ⟨_, rfl, ⟨hi.append_resolved rfl, pendingOk_some _ rfl⟩, rfl⟩
      | IncrementPointer k => exact ⟨_, rfl, ⟨hi, pendingOk_some _ rfl⟩, rfl⟩
      | DecrementPointer k => exact ⟨_, rfl, ⟨hi.append_resolved rfl, pendingOk_some _ rfl⟩, rfl⟩
      | Output => simp [foldClass] at hf
      | Input => simp [foldClass] at hf
      | LoopStart j => simp [foldClass] at hf
      | LoopEnd j => simp [foldClass] at hf
  by_cases h60 : b = 60
  · subst h60
    cases pending with
    | none => exact ⟨_, rfl, ⟨hi, pendingOk_some _ rfl⟩, rfl⟩
    | some instr =>
      have hf := hp instr rfl
      cases instr with
      | Add val => exact ⟨_, rfl, ⟨hi.append_resolved rfl, pendingOk_some _ rfl⟩, rfl⟩
      | Subtract val => exact ⟨_, rfl, ⟨hi.append_resolved rfl, pendingOk_some _ rfl⟩, rfl⟩
      | IncrementPointer k => exact ⟨_, rfl, ⟨hi.append_resolved rfl, pendingOk_some _ rfl⟩, rfl⟩
      | DecrementPointer k => exact ⟨_, rfl, ⟨hi, pendingOk_some _ rfl⟩, rfl⟩
      | Output => simp [foldClass] at hf
      | Input => simp [foldClass] at hf
      | LoopStart j => simp [foldClass] at hf
      | LoopEnd j => simp [foldClass] at hf
  by_cases h46 : b = 46
  · subst h46
    exact ⟨_, rfl, ⟨(ParseInv.commit ⟨hi, hp⟩).append_resolved rfl, pendingOk_none⟩, rfl⟩
  by_cases h44 : b = 44
  · subst h44
    exact ⟨_, rfl, ⟨(ParseInv.commit ⟨hi, hp⟩).append_resolved rfl, pendingOk_none⟩, rfl⟩
  exact ⟨⟨instrs, stack, pending⟩,
    by simp [parseStep, h43, h45, h62, h60, h46, h44, hb1, hb2], ⟨hi, hp⟩, rfl⟩

theorem parseStep_open (s : ParseState) (h : ParseInv s) :
    ∃ s', parseStep s 91 = some s' ∧ ParseInv s' ∧
      s'.loop_stack = (commitPending s).length :: s.loop_stack := by
  obtain ⟨hi, hp⟩ := h
  exact ⟨_, rfl, ⟨(ParseInv.commit ⟨hi, hp⟩).push_placeholder, pendingOk_none⟩, rfl⟩

theorem parseStep_close_nil (s : ParseState) (hstack : s.loop_stack = []) :
    parseStep s 93 = none := by
  obtain ⟨instrs, stack, pending⟩ := s
  have hstack' : stack = [] := hstack
  subst hstack'
  rfl

theorem parseStep_close_cons (s : ParseState) (idx : Nat) (rest : List Nat)
    (hstack : s.loop_stack = idx :: rest) (h : ParseInv s) :
    ∃ s', parseStep s 93 = some s' ∧ ParseInv s' ∧ s'.loop_stack = rest := by
  obtain ⟨hi, hp⟩ := h
  obtain ⟨instrs, stack, pending⟩ := s
  have hstack' : stack = idx :: rest := hstack
  subst hstack'
  have hc : InstrInv (commitPending ⟨instrs, idx :: rest, pending⟩) (idx :: rest) :=
    ParseInv.commit ⟨hi, hp⟩
  exact ⟨_, rfl, ⟨hc.close_bracket, pendingOk_none⟩, rfl⟩

theorem parseInv_init : ParseInv ⟨[], [], none⟩ := by
  refine ⟨⟨?_, ?_, ?_, ?_, ?_⟩, pendingOk_none⟩
  · intro i
    simp
  · intro x hx
    cases hx
  · exact List.Pairwise.nil
  · intro i j hij
    simp at hij
  · intro i j hij
    simp at hij

theorem parseLoop_inv : ∀ (data : List Nat) (s s' : ParseState),
    ParseInv s → parseLoop s data = some s' → ParseInv s' := by
  intro data
  induction data with
  | nil =>
    intro s s' h hl
    have he : s = s' := Option.some.inj hl
    exact he ▸ h
  | cons b rest ih =>
    intro s s' h hl
    rw [parseLoop_cons] at hl
    cases hstep : parseStep s b with
    | none => rw [hstep] at hl; cases hl
    | some s1 =>
      rw [hstep] at hl
      have h1 : ParseInv s1 := by
        by_cases hb91 : b = 91
        · subst hb91
          obtain ⟨s2, he, hinv, _⟩ := parseStep_open s h
          rw [he] at hstep
          cases hstep
          exact hinv
        by_cases hb93 : b = 93
        · subst hb93
          cases hstack : s.loop_stack with
          | nil =>
            rw [parseStep_close_nil s hstack] at hstep
            cases hstep
          | cons idx rest2 =>
            obtain ⟨s2, he, hinv, _⟩ := parseStep_close_cons s idx rest2 hstack h
            rw [he] at hstep
            cases hstep
            exact hinv
        · obtain ⟨s2, he, hinv, _⟩ := parseStep_not_bracket s b hb91 hb93 h
          rw [he] at hstep
          cases hstep
          exact hinv
      exact ih s1 s' h1 hl

/-- Claim C1: in every successfully parsed stream, each LoopStart at index i
carries a target j with i < j whose instruction is LoopEnd with target i,
and symmetrically each LoopEnd's target points back at its LoopStart; hence
no unmatched bracket instruction exists in the stream. -/
theorem loop_targets_mutually_matched :
    ∀ (data : List Nat) (prog : List BFInstruction), parse_data data = some prog →
      (∀ i j, prog[i]? = some (BFInstruction.LoopStart j) →
        i < j ∧ prog[j]? = some (BFInstruction.LoopEnd i)) ∧
      (∀ i j, prog[j]? = some (BFInstruction.LoopEnd i) →
        i < j ∧ prog[i]? = some (BFInstruction.LoopStart j)) := by
  intro data prog hp
  cases hpl : parseLoop ⟨[], [], none⟩ data with
  | none =>
    simp only [parse_data, hpl] at hp
    cases hp
  | some s1 =>
    simp only [parse_data, hpl] at hp
    have hinv : ParseInv s1 := parseLoop_inv data _ s1 parseInv_init hpl
    have hci : InstrInv (commitPending s1) s1.loop_stack := hinv.commit
    have hmap : commitPending s1 = prog.map some := collectInstrs_eq_map hp
    constructor
    · intro i j hij
      have h1 : (commitPending s1)[i]? = some (some (BFInstruction.LoopStart j)) := by
        rw [hmap, List.getElem?_map, hij]
        rfl
      obtain ⟨hlt, h2⟩ := hci.pairs_start i j h1
      refine ⟨hlt, ?_⟩
      rw [hmap, List.getElem?_map] at h2
      cases hj : prog[j]? with
      | none => rw [hj] at h2; cases h2
      | some x =>
        rw [hj] at h2
        simp only [Option.map_some', Option.some.injEq] at h2
        rw [h2]
    · intro i j hij
      have h1 : (commitPending s1)[j]? = some (some (BFInstruction.LoopEnd i)) := by
        rw [hmap, List.getElem?_map, hij]
        rfl
      obtain ⟨hlt, h2⟩ := hci.pairs_end i j h1
      refine ⟨hlt, ?_⟩
      rw [hmap, List.getElem?_map] at h2
      cases hi : prog[i]? with
      | none => rw [hi] at h2; cases h2
      | some x =>
        rw [hi] at h2
        simp only [Option.map_some', Option.some.injEq] at h2
        rw [h2]

/-- Witness for C1: in the parse of `[]`, the LoopStart at index 0 targets
index 1, which holds LoopEnd with target 0. -/
theorem loop_targets_mutually_matched_witness :
    0 < 1 ∧ [BFInstruction.LoopStart 1, BFInstruction.LoopEnd 0][1]? =
      some (BFInstruction.LoopEnd 0) :=
  (loop_targets_mutually_matched [91, 93]
    [BFInstruction.LoopStart 1, BFInstruction.LoopEnd 0] (by decide)).1 0 1 rfl

/-! Correspondence between parse failure and bracket imbalance. -/

theorem balancedSpecAux_no_brackets : ∀ (data : List Nat) (d : Nat),
    (∀ b ∈ data, b ≠ 91 ∧ b ≠ 93) → balancedSpecAux data d = (d == 0) := by
  intro data
  induction data with
  | nil => intro d _; rfl
  | cons b rest ih =>
    intro d hb
    obtain ⟨h91, h93⟩ := hb b (List.mem_cons_self b rest)
    have hrest : ∀ x ∈ rest, x ≠ 91 ∧ x ≠ 93 :=
      fun x hx => hb x (List.mem_cons_of_mem b hx)
    simp only [balancedSpecAux, if_neg h91, if_neg h93]
    exact ih d hrest

theorem parseLoop_balance : ∀ (data : List Nat) (s : ParseState), ParseInv s →
    ((parseLoop s data).elim false
      (fun s1 => (collectInstrs (commitPending s1)).isSome)) =
      balancedSpecAux data s.loop_stack.length := by
  intro data
  induction data with
  | nil =>
    intro s h
    show (collectInstrs (commitPending s)).isSome = (s.loop_stack.length == 0)
    have hci : InstrInv (commitPending s) s.loop_stack := ParseInv.commit h
    cases hstack : s.loop_stack with
    | nil =>
      rw [hstack] at hci
      have : none ∉ commitPending s := by
        intro hmem
        obtain ⟨i, hi⟩ := List.mem_iff_getElem?.mp hmem
        have := (hci.none_iff i).mp hi
        cases this
      simp [collectInstrs_isSome.mpr this]
    | cons idx rest =>
      rw [hstack] at hci
      have h1 : (commitPending s)[idx]? = some none :=
        (hci.none_iff idx).mpr (List.mem_cons_self idx rest)
      have h2 : none ∈ commitPending s := List.getElem?_mem h1
      have h3 : ¬ (collectInstrs (commitPending s)).isSome = true := by
        intro hc
        exact absurd h2 (collectInstrs_isSome.mp hc)
      simp [Bool.eq_false_iff.mpr h3]
  | cons b rest ih =>
    intro s h
    rw [parseLoop_cons]
    by_cases hb91 : b = 91
    · subst hb91
      obtain ⟨s1, he, hinv, hst⟩ := parseStep_open s h
      rw [he]
      show ((parseLoop s1 rest).elim false
        (fun s2 => (collectInstrs (commitPending s2)).isSome)) = _
      rw [ih s1 hinv, hst]
      simp [balancedSpecAux]
    by_cases hb93 : b = 93
    · subst hb93
      cases hstack : s.loop_stack with
      | nil =>
        rw [parseStep_close_nil s hstack]
        simp [balancedSpecAux, hstack]
      | cons idx rest2 =>
        obtain ⟨s1, he, hinv, hst⟩ := parseStep_close_cons s idx rest2 hstack h
        rw [he]
        show ((parseLoop s1 rest).elim false
          (fun s2 => (collectInstrs (commitPending s2)).isSome)) = _
        rw [ih s1 hinv, hst]
        simp [balancedSpecAux]
    · obtain ⟨s1, he, hinv, hst⟩ := parseStep_not_bracket s b hb91 hb93 h
      rw [he]
      show ((parseLoop s1 rest).elim false
        (fun s2 => (collectInstrs (commitPending s2)).isSome)) = _
      rw [ih s1 hinv, hst]
      simp [balancedSpecAux, hb91, hb93]

/-- Claim C2: parsing fails exactly when the brackets are unbalanced (some
`]` read at depth zero, or end of input at positive depth), and in
particular parsing succeeds for every source containing no bracket bytes. -/
theorem parse_fails_iff_unbalanced :
    ∀ data : List Nat,
      ((parse_data data).isSome = balancedSpec data) ∧
      ((∀ b ∈ data, b ≠ 91 ∧ b ≠ 93) → (parse_data data).isSome = true) := by
  intro data
  have key := parseLoop_balance data ⟨[], [], none⟩ parseInv_init
  rw [List.length_nil] at key
  have hmain : (parse_data data).isSome = balancedSpec data := by
    cases hpl : parseLoop ⟨[], [], none⟩ data with
    | none =>
      rw [hpl] at key
      simp only [Option.elim] at key
      simp only [parse_data, hpl, balancedSpec]
      rw [← key]
      rfl
    | some s1 =>
      rw [hpl] at key
      simp only [Option.elim] at key
      simp only [parse_data, hpl, balancedSpec]
      rw [← key]
  refine ⟨hmain, ?_⟩
  intro hnb
  rw [hmain, balancedSpec, balancedSpecAux_no_brackets data 0 hnb]
  rfl

/-- Witness for C2: a source with only a `+` and a comment byte parses
successfully. -/
theorem parse_fails_iff_unbalanced_witness :
    (parse_data [43, 99]).isSome = true :=
  (parse_fails_iff_unbalanced [43, 99]).2 (by decide)

/-! Preservation of the maximal-folding invariant by the parser. -/

theorem noAdjFold_append (l : List (Option BFInstruction)) (x : BFInstruction)
    (h : noAdjFold l)
    (hlast : ∀ p, l[l.length - 1]? = some (some p) →
      ∀ c, foldClass p = some c → foldClass x ≠ some c) :
    noAdjFold (l ++ [some x]) := by
  intro i p q c h1 h2 hc1 hc2
  rw [getElem?_concat] at h1 h2
  by_cases hi1 : i = l.length
  · rw [if_pos hi1] at h1
    have hne : ¬ (i + 1 = l.length) := by omega
    rw [if_neg hne] at h2
    rw [List.getElem?_eq_none (by omega)] at h2
    cases h2
  · rw [if_neg hi1] at h1
    by_cases hi2 : i + 1 = l.length
    · rw [if_pos hi2] at h2
      simp only [Option.some.injEq] at h2
      have hlen : l.length - 1 = i := by omega
      refine hlast p (by rw [hlen]; exact h1) c hc1 ?_
      rw [h2]
      exact hc2
    · rw [if_neg hi2] at h2
      exact h i p q c h1 h2 hc1 hc2

theorem noAdjFold_append_placeholder (l : List (Option BFInstruction))
    (h : noAdjFold l) : noAdjFold (l ++ [none]) := by
  intro i p q c h1 h2 hc1 hc2
  rw [getElem?_concat] at h1 h2
  by_cases hi1 : i = l.length
  · rw [if_pos hi1] at h1
    cases h1
  · rw [if_neg hi1] at h1
    by_cases hi2 : i + 1 = l.length
    · rw [if_pos hi2] at h2
      cases h2
    · rw [if_neg hi2] at h2
      exact h i p q c h1 h2 hc1 hc2

theorem noAdjFold_set_nonfold (l : List (Option BFInstruction)) (idx : Nat)
    (x : BFInstruction) (hx : foldClass x = none) (h : noAdjFold l) :
    noAdjFold (l.set idx (some x)) := by
  intro i p q c h1 h2 hc1 hc2
  rw [List.getElem?_set] at h1 h2
  by_cases hi1 : idx = i
  · rw [if_pos hi1] at h1
    by_cases hl : idx < l.length
    · rw [if_pos hl] at h1
      simp only [Option.some.injEq] at h1
      rw [← h1, hx] at hc1
      cases hc1
    · rw [if_neg hl] at h1
      cases h1
  · rw [if_neg hi1] at h1
    by_cases hi2 : idx = i + 1
    · rw [if_pos hi2] at h2
      by_cases hl : idx < l.length
      · rw [if_pos hl] at h2
        simp only [Option.some.injEq] at h2
        rw [← h2, hx] at hc2
        cases hc2
      · rw [if_neg hl] at h2
        cases h2
    · rw [if_neg hi2] at h2
      exact h i p q c h1 h2 hc1 hc2

theorem noAdjFold_replace_sameclass (l : List (Option BFInstruction))
    (p q : BFInstruction) (hpq : foldClass p = foldClass q)
    (h : noAdjFold (l ++ [some p])) : noAdjFold (l ++ [some q]) := by
  intro i a b c h1 h2 hc1 hc2
  rw [getElem?_concat] at h1 h2
  by_cases hi1 : i = l.length
  · rw [if_pos hi1] at h1
    have hne : ¬ (i + 1 = l.length) := by omega
    rw [if_neg hne] at h2
    rw [List.getElem?_eq_none (by omega)] at h2
    cases h2
  · rw [if_neg hi1] at h1
    by_cases hi2 : i + 1 = l.length
    · rw [if_pos hi2] at h2
      simp only [Option.some.injEq] at h2
      refine h i a p c ?_ ?_ hc1 ?_
      · rw [getElem?_concat, if_neg hi1]
        exact h1
      · rw [getElem?_concat, if_pos hi2]
      · rw [hpq, h2]
        exact hc2
    · rw [if_neg hi2] at h2
      refine h i a b c ?_ ?_ hc1 hc2
      · rw [getElem?_concat, if_neg hi1]
        exact h1
      · rw [getElem?_concat, if_neg hi2]
        exact h2

theorem lastNotFold_append (l : List (Option BFInstruction)) (x : BFInstruction)
    (hx : foldClass x = none) : lastNotFold (l ++ [some x]) := by
  intro instr h1
  have hlen : (l ++ [some x]).length - 1 = l.length := by simp
  rw [hlen, getElem?_concat, if_pos rfl] at h1
  simp only [Option.some.injEq] at h1
  rw [← h1]
  exact hx

theorem lastNotFold_append_placeholder (l : List (Option BFInstruction)) :
    lastNotFold (l ++ [none]) := by
  intro instr h1
  have hlen : (l ++ [none]).length - 1 = l.length := by simp
  rw [hlen, getElem?_concat, if_pos rfl] at h1
  cases h1

theorem foldInv_start_run (instrs : List (Option BFInstruction)) (stack : List Nat)
    (x : BFInstruction) (hx : (foldClass x).isSome = true)
    (hadj : noAdjFold instrs) (hlast : lastNotFold instrs) :
    FoldInv ⟨instrs, stack, some x⟩ := by
  refine ⟨?_, pendingOk_some _ hx, fun hc => by cases hc⟩
  show noAdjFold (instrs ++ [some x])
  refine noAdjFold_append _ _ hadj ?_
  intro p hp c hc
  have hfp := hlast p hp
  rw [hfp] at hc
  cases hc

theorem foldInv_fold_same (instrs : List (Option BFInstruction)) (stack : List Nat)
    (p q : BFInstruction) (hpq : foldClass p = foldClass q)
    (hq : (foldClass q).isSome = true)
    (hadj : noAdjFold (instrs ++ [some p])) :
    FoldInv ⟨instrs, stack, some q⟩ := by
  refine ⟨?_, pendingOk_some _ hq, fun hc => by cases hc⟩
  show noAdjFold (instrs ++ [some q])
  exact noAdjFold_replace_sameclass instrs p q hpq hadj

theorem foldInv_commit_new (instrs : List (Option BFInstruction)) (stack : List Nat)
    (p x : BFInstruction)
    (hadj : noAdjFold (instrs ++ [some p]))
    (hdiff : ∀ c, foldClass p = some c → foldClass x ≠ some c)
    (hx : (foldClass x).isSome = true) :
    FoldInv ⟨instrs ++ [some p], stack, some x⟩ := by
  refine ⟨?_, pendingOk_some _ hx, fun hc => by cases hc⟩
  show noAdjFold ((instrs ++ [some p]) ++ [some x])
  refine noAdjFold_append _ _ hadj ?_
  intro p' hp c hc
  have hlen : (instrs ++ [some p]).length - 1 = instrs.length := by simp
  rw [hlen, getElem?_concat, if_pos rfl] at hp
  simp only [Option.some.injEq] at hp
  rw [← hp] at hc
  exact hdiff c hc

theorem foldInv_append_nonfold (l : List (Option BFInstruction)) (stack : List Nat)
    (x : BFInstruction) (hx : foldClass x = none) (hadj : noAdjFold l) :
    FoldInv ⟨l ++ [some x], stack, none⟩ := by
  refine ⟨?_, pendingOk_none, fun _ => lastNotFold_append l x hx⟩
  show noAdjFold (l ++ [some x])
  refine noAdjFold_append _ _ hadj ?_
  intro p hp c hc
  rw [hx]
  intro hcc
  cases hcc

theorem foldInv_append_placeholder (l : List (Option BFInstruction)) (stack : List Nat)
    (hadj : noAdjFold l) :
    FoldInv ⟨l ++ [none], stack, none⟩ :=
  ⟨noAdjFold_append_placeholder l hadj, pendingOk_none,
    fun _ => lastNotFold_append_placeholder l⟩

theorem foldInv_close (l : List (Option BFInstruction)) (stack : List Nat) (idx len : Nat)
    (hadj : noAdjFold l) :
    FoldInv ⟨(l.set idx (some (.LoopStart len))) ++ [some (.LoopEnd idx)], stack, none⟩ := by
  refine ⟨?_, pendingOk_none, fun _ => lastNotFold_append _ _ rfl⟩
  show noAdjFold ((l.set idx (some (BFInstruction.LoopStart len)))
    ++ [some (BFInstruction.LoopEnd idx)])
  refine noAdjFold_append _ _ (noAdjFold_set_nonfold l idx _ rfl hadj) ?_
  intro p hp c hc
  exact fun hcc => Option.noConfusion hcc

theorem parseStep_preserves_fold (s : ParseState) (b : Nat) (s' : ParseState)
    (h : FoldInv s) (hstep : parseStep s b = some s') : FoldInv s' := by
  obtain ⟨hadj, hpend, hlastc⟩ := h
  obtain ⟨instrs, stack, pending⟩ := s
  by_cases h43 : b = 43
  · subst h43
    cases pending with
    | none =>
      cases hstep
      exact foldInv_start_run instrs stack _ rfl hadj (hlastc rfl)
    | some instr =>
      have hf := hpend instr rfl
      cases instr with
      | Add val =>
        cases hstep
        exact foldInv_fold_same instrs stack (.Add val) _ rfl rfl hadj
      | Subtract val =>
        cases hstep
        exact foldInv_commit_new instrs stack (.Subtract val) (.Add 1) hadj
          (by intro c hc hcc; simp only [foldClass, Option.some.injEq] at hc; injection hcc with hcc2; omega) rfl
      | IncrementPointer k =>
        cases hstep
        exact foldInv_commit_new instrs stack (.IncrementPointer k) (.Add 1) hadj
          (by intro c hc hcc; simp only [foldClass, Option.some.injEq] at hc; injection hcc with hcc2; omega) rfl
      | DecrementPointer k =>
        cases hstep
        exact foldInv_commit_new instrs stack (.DecrementPointer k) (.Add 1) hadj
          (by intro c hc hcc; simp only [foldClass, Option.some.injEq] at hc; injection hcc with hcc2; omega) rfl
      | Output => simp [foldClass] at hf
      | Input => simp [foldClass] at hf
      | LoopStart j => simp [foldClass] at hf
      | LoopEnd j => simp [foldClass] at hf
  by_cases h45 : b = 45
  · subst h45
    cases pending with
    | none =>
      cases hstep
      exact foldInv_start_run instrs stack _ rfl hadj (hlastc rfl)
    | some instr =>
      have hf := hpend instr rfl
      cases instr with
      | Add val =>
        cases hstep
        exact foldInv_commit_new instrs stack (.Add val) (.Subtract 1) hadj
          (by intro c hc hcc; simp only [foldClass, Option.some.injEq] at hc; injection hcc with hcc2; omega) rfl
      | Subtract val =>
        cases hstep
        exact foldInv_fold_same instrs stack (.Subtract val) _ rfl rfl hadj
      | IncrementPointer k =>
        cases hstep
        exact foldInv_commit_new instrs stack (.IncrementPointer k) (.Subtract 1) hadj
          (by intro c hc hcc; simp only [foldClass, Option.some.injEq] at hc; injection hcc with hcc2; omega) rfl
      | DecrementPointer k =>
        cases hstep
        exact foldInv_commit_new instrs stack (.DecrementPointer k) (.Subtract 1) hadj
          (by intro c hc hcc; simp only [foldClass, Option.some.injEq] at hc; injection hcc with hcc2; omega) rfl
      | Output => simp [foldClass] at hf
      | Input => simp [foldClass] at hf
      | LoopStart j => simp [foldClass] at hf
      | LoopEnd j => simp [foldClass] at hf
  by_cases h62 : b = 62
  · subst h62
    cases pending with
    | none =>
      cases hstep
      exact foldInv_start_run instrs stack _ rfl hadj (hlastc rfl)
    | some instr =>
      have hf := hpend instr rfl
      cases instr with
      | Add val =>
        cases hstep
        exact foldInv_commit_new instrs stack (.Add val) (.IncrementPointer 1) hadj
          (by intro c hc hcc; simp only [foldClass, Option.some.injEq] at hc; injection hcc with hcc2; omega) rfl
      | Subtract val =>
        cases hstep
        exact foldInv_commit_new instrs stack (.Subtract val) (.IncrementPointer 1) hadj
          (by intro c hc hcc; simp only [foldClass, Option.some.injEq] at hc; injection hcc with hcc2; omega) rfl
      | IncrementPointer k =>
        cases hstep
        exact foldInv_fold_same instrs stack (.IncrementPointer k) _ rfl rfl hadj
      | DecrementPointer k =>
        cases hstep
        exact foldInv_commit_new instrs stack (.DecrementPointer k) (.IncrementPointer 1) hadj
          (by intro c hc hcc; simp only [foldClass, Option.some.injEq] at hc; injection hcc with hcc2; omega) rfl
      | Output => simp [foldClass] at hf
      | Input => simp [foldClass] at hf
      | LoopStart j => simp [foldClass] at hf
      | LoopEnd j => simp [foldClass] at hf
  by_cases h60 : b = 60
  · subst h60
    cases pending with
    | none =>
      cases hstep
      exact foldInv_start_run instrs stack _ rfl hadj (hlastc rfl)
    | some instr =>
      have hf := hpend instr rfl
      cases instr with
      | Add val =>
        cases hstep
        exact foldInv_commit_new instrs stack (.Add val) (.DecrementPointer 1) hadj
          (by intro c hc hcc; simp only [foldClass, Option.some.injEq] at hc; injection hcc with hcc2; omega) rfl
      | Subtract val =>
        cases hstep
        exact foldInv_commit_new instrs stack (.Subtract val) (.DecrementPointer 1) hadj
          (by intro c hc hcc; simp only [foldClass, Option.some.injEq] at hc; injection hcc with hcc2; omega) rfl
      | IncrementPointer k =>
        cases hstep
        exact foldInv_commit_new instrs stack (.IncrementPointer k) (.DecrementPointer 1) hadj
          (by intro c hc hcc; simp only [foldClass, Option.some.injEq] at hc; injection hcc with hcc2; omega) rfl
      | DecrementPointer k =>
        cases hstep
        exact foldInv_fold_same instrs stack (.DecrementPointer k) _ rfl rfl hadj
      | Output => simp [foldClass] at hf
      | Input => simp [foldClass] at hf
      | LoopStart j => simp [foldClass] at hf
      | LoopEnd j => simp [foldClass] at hf
  by_cases h46 : b = 46
  · subst h46
    cases hstep
    exact foldInv_append_nonfold _ stack .Output rfl hadj
  by_cases h44 : b = 44
  · subst h44
    cases hstep
    exact foldInv_append_nonfold _ stack .Input rfl hadj
  by_cases h91 : b = 91
  · subst h91
    cases hstep
    exact foldInv_append_placeholder _ _ hadj
  by_cases h93 : b = 93
  · subst h93
    cases stack with
    | nil => cases hstep
    | cons idx rest =>
      cases hstep
      exact foldInv_close _ rest idx _ hadj
  · simp [parseStep, h43, h45, h62, h60, h46, h44, h91, h93] at hstep
    subst hstep
    exact ⟨hadj, hpend, hlastc⟩

theorem parseLoop_fold_inv : ∀ (data : List Nat) (s s' : ParseState),
    FoldInv s → parseLoop s data = some s' → FoldInv s' := by
  intro data
  induction data with
  | nil =>
    intro s s' h hl
    have he : s = s' := Option.some.inj hl
    exact he ▸ h
  | cons b rest ih =>
    intro s s' h hl
    rw [parseLoop_cons] at hl
    cases hstep : parseStep s b with
    | none => rw [hstep] at hl; cases hl
    | some s1 =>
      rw [hstep] at hl
      exact ih s1 s' (parseStep_preserves_fold s b s1 h hstep) hl

theorem foldInv_init : FoldInv ⟨[], [], none⟩ := by
  refine ⟨?_, pendingOk_none, fun _ => ?_⟩
  · intro i p q c h1 h2 hc1 hc2
    simp [commitPending] at h1
  · intro instr h1
    simp at h1

/-- Claim C6: in every successfully parsed stream, no two adjacent
instructions carry the same run-length-foldable tag among Add, Subtract,
AdvancePointer (IncrementPointer) and RetreatPointer (DecrementPointer):
run-length folding is maximal. -/
theorem no_adjacent_equal_fold_tags :
    ∀ (data : List Nat) (prog : List BFInstruction) (i : Nat)
      (p q : BFInstruction) (c : Nat),
      parse_data data = some prog →
      prog[i]? = some p → prog[i + 1]? = some q →
      foldClass p = some c → foldClass q ≠ some c := by
  intro data prog i p q c hp h1 h2 hc1 hc2
  cases hpl : parseLoop ⟨[], [], none⟩ data with
  | none =>
    simp only [parse_data, hpl] at hp
    cases hp
  | some s1 =>
    simp only [parse_data, hpl] at hp
    have hfi : FoldInv s1 := parseLoop_fold_inv data _ s1 foldInv_init hpl
    have hmap : commitPending s1 = prog.map some := collectInstrs_eq_map hp
    refine hfi.noadj i p q c ?_ ?_ hc1 hc2
    · rw [hmap, List.getElem?_map, h1]
      rfl
    · rw [hmap, List.getElem?_map, h2]
      rfl

/-- Witness for C6: in the parse of `+-`, the Add at index 0 is adjacent to
the Subtract at index 1, whose fold tag therefore differs from Add's. -/
theorem no_adjacent_equal_fold_tags_witness :
    foldClass (BFInstruction.Subtract 1) ≠ some 0 :=
  no_adjacent_equal_fold_tags [43, 45] [BFInstruction.Add 1, BFInstruction.Subtract 1] 0
    (BFInstruction.Add 1) (BFInstruction.Subtract 1) 0 (by decide) rfl rfl rfl
